import Mathlib

/-!
# Verification of the sliding-window statistics accumulator

Shallow embedding of `src/sqlite-stddev-extension.c`: the `WindowStatsData`
circular-buffer accumulator together with its step (insert), inverse (evict),
growth and variance-calculation routines.  Doubles are modelled as exact
rationals (the specification's non-goal section fixes the algorithmic
formulas, not IEEE rounding); the C `NAN` sentinel returned by the variance
calculations is modelled as `Option.none`; `malloc` failure is modelled by a
boolean allocation oracle passed to the operations that allocate.
-/

/-- The C macro `INITIAL_CAPACITY` (100). -/
def INITIAL_CAPACITY : ℕ := 100

/-- The C macro `CAPACITY_GROWTH_FACTOR` (2). -/
def CAPACITY_GROWTH_FACTOR : ℕ := 2

/-- The C macro `MIN_COUNT_POPULATION` (1). -/
def MIN_COUNT_POPULATION : ℕ := 1

/-- The C macro `MIN_COUNT_SAMPLE` (2). -/
def MIN_COUNT_SAMPLE : ℕ := 2

/-- An SQLite value as seen by the step/inverse callbacks: NULL, a numeric
(INTEGER/FLOAT) value, or a value of some other type (TEXT/BLOB). -/
inductive SQLiteValue where
  | null : SQLiteValue
  | numeric : ℚ → SQLiteValue
  | other : SQLiteValue
deriving DecidableEq

/-- The C struct `WindowStatsData`.  The `values` pointer is `none` when it is
`NULL` (no buffer allocated yet); otherwise it holds the physical buffer, a
list whose length is the allocated `capacity`. -/
structure WindowStatsData where
  values : Option (List ℚ)
  count : ℕ
  capacity : ℕ
  head : ℕ
  tail : ℕ
  sum : ℚ
  sum_sq : ℚ
deriving DecidableEq

/-- The zero-initialized aggregate context handed out by
`sqlite3_aggregate_context` on the first step call (all bytes zero, so the
`values` pointer is `NULL`). -/
def initialData : WindowStatsData :=
  { values := none, count := 0, capacity := 0, head := 0, tail := 0, sum := 0, sum_sq := 0 }

/-- The physical buffer behind the `values` pointer (empty if `NULL`). -/
def bufOf (d : WindowStatsData) : List ℚ := d.values.getD []

/-- Source function `get_circular_value`: `data->values[(data->head + logical_index) % data->capacity]`. -/
def get_circular_value (d : WindowStatsData) (logical_index : ℕ) : ℚ :=
  (bufOf d).getD ((d.head + logical_index) % d.capacity) 0

/-- Source function `add_to_circular_buffer`: write `value` at `tail`, advance `tail`
modulo `capacity`, increment `count`. -/
def add_to_circular_buffer (d : WindowStatsData) (value : ℚ) : WindowStatsData :=
  { d with values := some ((bufOf d).set d.tail value),
           tail := (d.tail + 1) % d.capacity,
           count := d.count + 1 }

/-- Source function `remove_from_circular_buffer`: if the buffer is empty return `0.0`,
otherwise return the value at `head`, advance `head` modulo `capacity` and
decrement `count`. -/
def remove_from_circular_buffer (d : WindowStatsData) : ℚ × WindowStatsData :=
  if d.count = 0 then (0, d)
  else ((bufOf d).getD d.head 0,
        { d with head := (d.head + 1) % d.capacity, count := d.count - 1 })

/-- Source function `init_window_stats_data`: sets `capacity = INITIAL_CAPACITY`, then
attempts the `malloc`; on success every remaining field is reset to zero.
Note that on `malloc` failure the function has already assigned
`data->capacity = INITIAL_CAPACITY` while `values` stays `NULL`.  The fresh
`malloc`-ed block is uninitialized; it is modelled as zero-filled (no live
slot is ever read before being written). -/
def init_window_stats_data (allocOk : Bool) (d : WindowStatsData) :
    WindowStatsData × Bool :=
  let d1 := { d with capacity := INITIAL_CAPACITY }
  if allocOk then
    ({ d1 with values := some (List.replicate INITIAL_CAPACITY 0),
               count := 0, head := 0, tail := 0, sum := 0, sum_sq := 0 }, true)
  else (d1, false)

/-- Source function `grow_stats_buffer`: allocate a buffer of `capacity * CAPACITY_GROWTH_FACTOR`
doubles, copy the `count` live values through `get_circular_value` into
positions `0..count`, free the old buffer, set `head = 0`, `tail = count`.
On `malloc` failure nothing is modified. -/
def grow_stats_buffer (allocOk : Bool) (d : WindowStatsData) :
    WindowStatsData × Bool :=
  let new_capacity := d.capacity * CAPACITY_GROWTH_FACTOR
  if allocOk then
    ({ d with values := some ((List.range d.count).map (get_circular_value d) ++
                              List.replicate (new_capacity - d.count) 0),
              capacity := new_capacity,
              head := 0,
              tail := d.count }, true)
  else (d, false)

/-- Outcome reported by the step callback through the SQLite context. -/
inductive StepOutcome where
  | ok : StepOutcome
  | oom : StepOutcome
  | typeErr : StepOutcome
deriving DecidableEq

/-- Source function `stats_step` for a 1-argument call: lazily initialize the buffer when the
`values` pointer is `NULL`; ignore NULL rows; reject non-numeric rows; grow
the buffer when `count >= capacity`; then commit the value to the circular
buffer and add it into `sum` and `sum_sq`. -/
def stats_step (allocOk : Bool) (d0 : WindowStatsData) (arg : SQLiteValue) :
    WindowStatsData × StepOutcome :=
  let initRes :=
    match d0.values with
    | none => init_window_stats_data allocOk d0
    | some _ => (d0, true)
  if initRes.2 = false then (initRes.1, StepOutcome.oom)
  else
    let d := initRes.1
    match arg with
    | SQLiteValue.null => (d, StepOutcome.ok)
    | SQLiteValue.other => (d, StepOutcome.typeErr)
    | SQLiteValue.numeric v =>
      let growRes := if d.capacity ≤ d.count then grow_stats_buffer allocOk d else (d, true)
      if growRes.2 = false then (growRes.1, StepOutcome.oom)
      else
        let d1 := add_to_circular_buffer growRes.1 v
        ({ d1 with sum := d1.sum + v, sum_sq := d1.sum_sq + v * v }, StepOutcome.ok)

/-- Source function `stats_inverse`: no-op when the context has no buffer or is empty, or when
the departing row is NULL; otherwise remove the oldest value and subtract it
(and its square) from the running aggregates. -/
def stats_inverse (d : WindowStatsData) (arg : SQLiteValue) : WindowStatsData :=
  if d.values = none ∨ d.count = 0 then d
  else if arg = SQLiteValue.null then d
  else
    let p := remove_from_circular_buffer d
    { p.2 with sum := p.2.sum - p.1, sum_sq := p.2.sum_sq - p.1 * p.1 }

/-- Source function `calculate_variance_sample`: `NAN` (modelled `none`) when
`count < MIN_COUNT_SAMPLE`; otherwise population variance from the running
aggregates with Bessel's correction applied.  The C divisor `count - 1` is a
`size_t` subtraction, hence the `ℕ` subtraction under the cast. -/
def calculate_variance_sample (d : WindowStatsData) : Option ℚ :=
  if d.count < MIN_COUNT_SAMPLE then none
  else
    let mean := d.sum / (d.count : ℚ)
    let variance_pop := d.sum_sq / (d.count : ℚ) - mean * mean
    some (variance_pop * ((d.count : ℚ) / ((d.count - 1 : ℕ) : ℚ)))

/-- Source function `calculate_variance_population`: `NAN` (modelled `none`) when
`count < MIN_COUNT_POPULATION`; otherwise `sum_sq/count - mean²`. -/
def calculate_variance_population (d : WindowStatsData) : Option ℚ :=
  if d.count < MIN_COUNT_POPULATION then none
  else
    let mean := d.sum / (d.count : ℚ)
    some (d.sum_sq / (d.count : ℚ) - mean * mean)

/-- The ensure-capacity phase that `stats_step` runs before committing a
numeric value (lines 179-203 of the C source): initialize the buffer when the
`values` pointer is still `NULL`, otherwise grow it when `count >= capacity`. -/
def ensure_capacity (allocOk : Bool) (d : WindowStatsData) : WindowStatsData × Bool :=
  match d.values with
  | none => init_window_stats_data allocOk d
  | some _ => if d.capacity ≤ d.count then grow_stats_buffer allocOk d else (d, true)

/-- One driver operation: a step (row entering) or an inverse (row leaving)
callback with the given SQLite argument. -/
inductive Op where
  | step : SQLiteValue → Op
  | inverse : SQLiteValue → Op
deriving DecidableEq

/-- Apply one operation with allocations succeeding. -/
def applyOp (d : WindowStatsData) : Op → WindowStatsData
  | Op.step v => (stats_step true d v).1
  | Op.inverse v => stats_inverse d v

/-- Run a sequence of operations from the zero-initialized context. -/
def runOps (ops : List Op) : WindowStatsData :=
  ops.foldl applyOp initialData

/-- The currently-live values in logical (oldest-to-newest) order, read
through the code's own circular indexing. -/
def liveValues (d : WindowStatsData) : List ℚ :=
  (List.range d.count).map (get_circular_value d)

/-- Structural well-formedness of a context: the buffer length matches
`capacity`, `count` fits, and when a buffer is allocated `head` is in range
and `tail` sits `count` past `head` (circularly); an unallocated context is
all zeroes. -/
def WF (d : WindowStatsData) : Prop :=
  (bufOf d).length = d.capacity ∧
  d.count ≤ d.capacity ∧
  (d.values = none →
    d.capacity = 0 ∧ d.count = 0 ∧ d.head = 0 ∧ d.tail = 0 ∧ d.sum = 0 ∧ d.sum_sq = 0) ∧
  (d.values ≠ none →
    0 < d.capacity ∧ d.head < d.capacity ∧ d.tail = (d.head + d.count) % d.capacity)

instance (d : WindowStatsData) : Decidable (WF d) := by
  unfold WF; infer_instance

/-- Full invariant: structurally well-formed and the running aggregates agree
with the live values. -/
def StatsInv (d : WindowStatsData) : Prop :=
  WF d ∧ d.sum = (liveValues d).sum ∧
    d.sum_sq = ((liveValues d).map (fun x => x * x)).sum

/-! ## Generic list helpers -/

theorem WF_initialData : WF initialData := by
  refine ⟨rfl, Nat.le_refl 0, fun _ => ⟨rfl, rfl, rfl, rfl, rfl, rfl⟩, fun hne => ?_⟩
  exact absurd rfl hne

theorem statsInv_initialData : StatsInv initialData :=
  ⟨WF_initialData, rfl, rfl⟩

theorem getD_set_ne (l : List ℚ) (i j : ℕ) (v : ℚ) (h : i ≠ j) :
    (l.set i v).getD j 0 = l.getD j 0 := by
  simp [List.getD_eq_getElem?_getD, List.getElem?_set_ne h]

theorem getD_set_self (l : List ℚ) (i : ℕ) (v : ℚ) (h : i < l.length) :
    (l.set i v).getD i 0 = v := by
  simp [List.getD_eq_getElem?_getD, List.getElem?_set_self, h]

theorem getD_append_left (l₁ l₂ : List ℚ) (i : ℕ) (h : i < l₁.length) :
    (l₁ ++ l₂).getD i 0 = l₁.getD i 0 := by
  simp [List.getD_eq_getElem?_getD, List.getElem?_append, h]

/-- Two physical positions `head + i` and `head + count` (taken mod the
capacity) are distinct when `i < count < cap`: an insert at the tail slot
never overwrites a live slot. -/
theorem circ_index_ne (head i count cap : ℕ) (hi : i < count) (hc : count < cap) :
    (head + i) % cap ≠ (head + count) % cap := by
  intro h
  have h2 : i % cap = count % cap := Nat.ModEq.add_left_cancel' head h
  rw [Nat.mod_eq_of_lt (hi.trans hc), Nat.mod_eq_of_lt hc] at h2
  exact absurd h2 (Nat.ne_of_lt hi)

/-! ## Basic facts about the live-value view -/

theorem liveValues_length (d : WindowStatsData) : (liveValues d).length = d.count := by
  simp [liveValues]

theorem liveValues_getD (d : WindowStatsData) (i : ℕ) (h : i < d.count) :
    (liveValues d).getD i 0 = get_circular_value d i := by
  simp [liveValues, List.getD_eq_getElem?_getD, List.getElem?_map, List.getElem?_range h]

theorem liveValues_of_count_zero (d : WindowStatsData) (h : d.count = 0) :
    liveValues d = [] := by
  simp [liveValues, h]

/-! ## Behaviour of the three buffer operations on a well-formed state -/

theorem add_liveValues (d : WindowStatsData) (v : ℚ)
    (hlen : (bufOf d).length = d.capacity)
    (hhead : d.head < d.capacity)
    (htail : d.tail = (d.head + d.count) % d.capacity)
    (hcnt : d.count < d.capacity) :
    liveValues (add_to_circular_buffer d v) = liveValues d ++ [v] := by
  have hcap : 0 < d.capacity := Nat.lt_of_le_of_lt (Nat.zero_le _) hcnt
  have hgcv : ∀ i, get_circular_value (add_to_circular_buffer d v) i
      = ((bufOf d).set d.tail v).getD ((d.head + i) % d.capacity) 0 := by
    intro i; simp [get_circular_value, add_to_circular_buffer, bufOf]
  have hcount : (add_to_circular_buffer d v).count = d.count + 1 := rfl
  rw [liveValues, hcount, List.range_succ, List.map_append]
  congr 1
  · rw [liveValues]
    apply List.map_congr_left
    intro i hi
    rw [List.mem_range] at hi
    rw [hgcv, htail, getD_set_ne _ _ _ _ (Ne.symm (circ_index_ne _ _ _ _ hi hcnt))]
    rfl
  · simp only [List.map_cons, List.map_nil]
    congr 1
    rw [hgcv, htail, getD_set_self]
    rw [hlen]
    exact Nat.mod_lt _ hcap

theorem WF_add (d : WindowStatsData) (v : ℚ) (h : WF d)
    (hv : d.values ≠ none) (hcnt : d.count < d.capacity) :
    WF (add_to_circular_buffer d v) := by
  obtain ⟨hlen, hle, hnone, hsome⟩ := h
  obtain ⟨hcap, hhead, htail⟩ := hsome hv
  refine ⟨?_, ?_, ?_, ?_⟩
  · simpa [add_to_circular_buffer, bufOf] using hlen
  · simpa [add_to_circular_buffer] using hcnt
  · intro hn; simp [add_to_circular_buffer] at hn
  · intro _
    refine ⟨hcap, hhead, ?_⟩
    show (d.tail + 1) % d.capacity = (d.head + (d.count + 1)) % d.capacity
    rw [htail, Nat.mod_add_mod, Nat.add_assoc]

theorem remove_fst (d : WindowStatsData) (hhead : d.head < d.capacity)
    (hcnt : d.count ≠ 0) :
    (remove_from_circular_buffer d).1 = get_circular_value d 0 := by
  rw [remove_from_circular_buffer, if_neg hcnt, get_circular_value]
  simp [Nat.mod_eq_of_lt hhead]

theorem remove_liveValues (d : WindowStatsData)
    (hhead : d.head < d.capacity) (hcnt : d.count ≠ 0) :
    liveValues d =
      (remove_from_circular_buffer d).1 ::
        liveValues (remove_from_circular_buffer d).2 := by
  obtain ⟨k, hk⟩ : ∃ k, d.count = k + 1 := ⟨d.count - 1, by omega⟩
  have hd2 : (remove_from_circular_buffer d).2 =
      { d with head := (d.head + 1) % d.capacity, count := d.count - 1 } := by
    rw [remove_from_circular_buffer, if_neg hcnt]
  have h1 : liveValues d = get_circular_value d 0 ::
      (List.range k).map (fun i => get_circular_value d (i + 1)) := by
    rw [liveValues, hk, List.range_succ_eq_map, List.map_cons, List.map_map]
    rfl
  have h2 : liveValues ({ d with head := (d.head + 1) % d.capacity,
                                 count := d.count - 1 } : WindowStatsData) =
      (List.range k).map (fun i => get_circular_value d (i + 1)) := by
    rw [liveValues]
    have hc : ({ d with head := (d.head + 1) % d.capacity,
                        count := d.count - 1 } : WindowStatsData).count = k := by
      show d.count - 1 = k
      omega
    rw [hc]
    apply List.map_congr_left
    intro i hi
    show (bufOf d).getD (((d.head + 1) % d.capacity + i) % d.capacity) 0 =
      (bufOf d).getD ((d.head + (i + 1)) % d.capacity) 0
    have hidx : ((d.head + 1) % d.capacity + i) % d.capacity =
        (d.head + (i + 1)) % d.capacity := by
      rw [Nat.mod_add_mod]
      congr 1
      omega
    rw [hidx]
  rw [remove_fst d hhead hcnt, hd2, h1, h2]

theorem WF_remove (d : WindowStatsData) (h : WF d)
    (hv : d.values ≠ none) (hcnt : d.count ≠ 0) :
    WF (remove_from_circular_buffer d).2 := by
  obtain ⟨hlen, hle, hnone, hsome⟩ := h
  obtain ⟨hcap, hhead, htail⟩ := hsome hv
  have hd2 : (remove_from_circular_buffer d).2 =
      { d with head := (d.head + 1) % d.capacity, count := d.count - 1 } := by
    rw [remove_from_circular_buffer, if_neg hcnt]
  rw [hd2]
  refine ⟨by simpa [bufOf] using hlen, by simpa using Nat.le_trans (Nat.sub_le _ _) hle,
    ?_, ?_⟩
  · intro hn; simp at hn; exact absurd hn hv
  · intro _
    refine ⟨hcap, Nat.mod_lt _ hcap, ?_⟩
    show d.tail = ((d.head + 1) % d.capacity + (d.count - 1)) % d.capacity
    rw [htail, Nat.mod_add_mod]
    congr 1
    omega

theorem grow_spec (d : WindowStatsData) (h : WF d) (hv : d.values ≠ none) :
    WF (grow_stats_buffer true d).1 ∧
      liveValues (grow_stats_buffer true d).1 = liveValues d ∧
      bufOf (grow_stats_buffer true d).1 =
        liveValues d ++
          List.replicate (d.capacity * CAPACITY_GROWTH_FACTOR - d.count) 0 := by
  obtain ⟨hlen, hle, hnone, hsome⟩ := h
  obtain ⟨hcap, hhead, htail⟩ := hsome hv
  have hg : (grow_stats_buffer true d).1 =
      { d with values := some (liveValues d ++
                 List.replicate (d.capacity * CAPACITY_GROWTH_FACTOR - d.count) 0),
               capacity := d.capacity * CAPACITY_GROWTH_FACTOR,
               head := 0,
               tail := d.count } := by
    rw [grow_stats_buffer]; simp [liveValues]
  have hcnt2 : d.count < d.capacity * CAPACITY_GROWTH_FACTOR := by
    rw [CAPACITY_GROWTH_FACTOR]; omega
  have hlive : liveValues (grow_stats_buffer true d).1 = liveValues d := by
    rw [hg, liveValues]
    have : ({ d with values := some (liveValues d ++
                       List.replicate (d.capacity * CAPACITY_GROWTH_FACTOR - d.count) 0),
                     capacity := d.capacity * CAPACITY_GROWTH_FACTOR,
                     head := 0,
                     tail := d.count } : WindowStatsData).count = d.count := rfl
    rw [this]
    conv_rhs => rw [liveValues]
    apply List.map_congr_left
    intro i hi
    rw [List.mem_range] at hi
    rw [get_circular_value]
    simp only [bufOf]
    show ((liveValues d ++ _).getD ((0 + i) % (d.capacity * CAPACITY_GROWTH_FACTOR)) 0 : ℚ) = _
    rw [Nat.zero_add, Nat.mod_eq_of_lt (Nat.lt_of_lt_of_le hi (Nat.le_of_lt hcnt2)),
      getD_append_left _ _ _ (by rw [liveValues_length]; exact hi),
      liveValues_getD d i hi]
  refine ⟨?_, hlive, by rw [hg]; rfl⟩
  rw [hg]
  refine ⟨?_, ?_, ?_, ?_⟩
  · show (liveValues d ++ _).length = d.capacity * CAPACITY_GROWTH_FACTOR
    rw [List.length_append, List.length_replicate, liveValues_length]
    omega
  · show d.count ≤ d.capacity * CAPACITY_GROWTH_FACTOR
    omega
  · intro hn; simp at hn
  · intro _
    refine ⟨?_, ?_, ?_⟩
    · show 0 < d.capacity * CAPACITY_GROWTH_FACTOR
      omega
    · show 0 < d.capacity * CAPACITY_GROWTH_FACTOR
      omega
    · show d.count = (0 + d.count) % (d.capacity * CAPACITY_GROWTH_FACTOR)
      rw [Nat.zero_add, Nat.mod_eq_of_lt hcnt2]

/-! ## The step and inverse callbacks on a well-formed state -/

/-- Committing a numeric value (`add_to_circular_buffer` followed by the two
running-aggregate updates) on a non-full well-formed state. -/
theorem commit_spec (d : WindowStatsData) (v : ℚ) (h : WF d)
    (hv : d.values ≠ none) (hcnt : d.count < d.capacity) :
    WF ({ add_to_circular_buffer d v with
            sum := (add_to_circular_buffer d v).sum + v,
            sum_sq := (add_to_circular_buffer d v).sum_sq + v * v }) ∧
      liveValues ({ add_to_circular_buffer d v with
            sum := (add_to_circular_buffer d v).sum + v,
            sum_sq := (add_to_circular_buffer d v).sum_sq + v * v }) =
        liveValues d ++ [v] := by
  obtain ⟨ha, hb, hc, he⟩ := WF_add d v h hv hcnt
  obtain ⟨hlen, hle, hnone, hsome⟩ := h
  obtain ⟨hcap, hhead, htail⟩ := hsome hv
  constructor
  · refine ⟨ha, hb, ?_, he⟩
    intro hn
    exact absurd hn (by simp [add_to_circular_buffer])
  · exact add_liveValues d v hlen hhead htail hcnt

theorem grow_snd (d : WindowStatsData) : (grow_stats_buffer true d).2 = true := rfl

theorem init_fst (d : WindowStatsData) : (init_window_stats_data true d).1 =
    { values := some (List.replicate INITIAL_CAPACITY 0), count := 0,
      capacity := INITIAL_CAPACITY, head := 0, tail := 0, sum := 0, sum_sq := 0 } := rfl

theorem WF_init (d : WindowStatsData) : WF (init_window_stats_data true d).1 := by
  rw [init_fst]
  exact ⟨by simp [bufOf], by simp, fun hn => by simp at hn,
    fun _ => ⟨by norm_num [INITIAL_CAPACITY], by norm_num [INITIAL_CAPACITY], rfl⟩⟩

theorem statsInv_init (d : WindowStatsData) : StatsInv (init_window_stats_data true d).1 :=
  ⟨WF_init d, rfl, rfl⟩

/-- Stepping a numeric value on any well-formed state (allocations
succeeding): the outcome is OK, well-formedness is preserved, the value is
appended to the live sequence, and the aggregates are bumped. -/
theorem step_numeric (d : WindowStatsData) (v : ℚ) (h : WF d) :
    (stats_step true d (SQLiteValue.numeric v)).2 = StepOutcome.ok ∧
    WF (stats_step true d (SQLiteValue.numeric v)).1 ∧
    liveValues (stats_step true d (SQLiteValue.numeric v)).1 = liveValues d ++ [v] ∧
    (stats_step true d (SQLiteValue.numeric v)).1.sum = d.sum + v ∧
    (stats_step true d (SQLiteValue.numeric v)).1.sum_sq = d.sum_sq + v * v ∧
    (stats_step true d (SQLiteValue.numeric v)).1.count = d.count + 1 := by
  rcases hval : d.values with _ | buf
  · -- first call: lazy initialization, then commit into the fresh buffer
    obtain ⟨hlen, hle, hnone, hsome⟩ := h
    obtain ⟨hcap0, hcnt0, hh0, ht0, hs0, hq0⟩ := hnone hval
    have hfresh := init_fst d
    have hWFf : WF (init_window_stats_data true d).1 := WF_init d
    have hred : stats_step true d (SQLiteValue.numeric v) =
        ({ add_to_circular_buffer (init_window_stats_data true d).1 v with
             sum := (add_to_circular_buffer (init_window_stats_data true d).1 v).sum + v,
             sum_sq := (add_to_circular_buffer (init_window_stats_data true d).1 v).sum_sq
               + v * v }, StepOutcome.ok) := by
      simp [stats_step, hval, hfresh, init_window_stats_data, INITIAL_CAPACITY]
    obtain ⟨hw, hl⟩ := commit_spec (init_window_stats_data true d).1 v hWFf
      (by rw [hfresh]; simp) (by rw [hfresh]; norm_num [INITIAL_CAPACITY])
    rw [hred]
    refine ⟨rfl, hw, ?_, ?_, ?_, ?_⟩
    · rw [hl, hfresh, liveValues_of_count_zero _ rfl, liveValues_of_count_zero d hcnt0]
    · show (init_window_stats_data true d).1.sum + v = d.sum + v
      rw [hfresh, hs0]
    · show (init_window_stats_data true d).1.sum_sq + v * v = d.sum_sq + v * v
      rw [hfresh, hq0]
    · show (init_window_stats_data true d).1.count + 1 = d.count + 1
      rw [hfresh, hcnt0]
  · have hv : d.values ≠ none := by rw [hval]; simp
    by_cases hfull : d.capacity ≤ d.count
    · -- full: grow, then commit
      have hcap : 0 < d.capacity := ((h.2.2.2) hv).1
      have hWFg := (grow_spec d h hv).1
      have hliveg := (grow_spec d h hv).2.1
      have hcntg : (grow_stats_buffer true d).1.count < (grow_stats_buffer true d).1.capacity := by
        show d.count < d.capacity * CAPACITY_GROWTH_FACTOR
        have := h.2.1
        rw [CAPACITY_GROWTH_FACTOR]
        omega
      have hvg : (grow_stats_buffer true d).1.values ≠ none := by
        show some _ ≠ none
        simp
      have hred : stats_step true d (SQLiteValue.numeric v) =
          ({ add_to_circular_buffer (grow_stats_buffer true d).1 v with
               sum := (add_to_circular_buffer (grow_stats_buffer true d).1 v).sum + v,
               sum_sq := (add_to_circular_buffer (grow_stats_buffer true d).1 v).sum_sq
                 + v * v }, StepOutcome.ok) := by
        simp [stats_step, hval, hfull, grow_snd]
      obtain ⟨hw, hl⟩ := commit_spec (grow_stats_buffer true d).1 v hWFg hvg hcntg
      rw [hred]
      refine ⟨rfl, hw, ?_, ?_, ?_, ?_⟩
      · rw [hl, hliveg]
      · show (grow_stats_buffer true d).1.sum + v = d.sum + v
        rfl
      · show (grow_stats_buffer true d).1.sum_sq + v * v = d.sum_sq + v * v
        rfl
      · show (grow_stats_buffer true d).1.count + 1 = d.count + 1
        rfl
    · -- room available: commit directly
      have hcnt : d.count < d.capacity := Nat.lt_of_not_le hfull
      have hred : stats_step true d (SQLiteValue.numeric v) =
          ({ add_to_circular_buffer d v with
               sum := (add_to_circular_buffer d v).sum + v,
               sum_sq := (add_to_circular_buffer d v).sum_sq + v * v }, StepOutcome.ok) := by
        simp [stats_step, hval, hfull]
      obtain ⟨hw, hl⟩ := commit_spec d v h hv hcnt
      rw [hred]
      exact ⟨rfl, hw, hl, rfl, rfl, rfl⟩

/-- A NULL row on the step callback: when a buffer exists the state is
untouched; otherwise only the lazy initialization runs. -/
theorem step_null_some (d : WindowStatsData) (hv : d.values ≠ none) :
    stats_step true d SQLiteValue.null = (d, StepOutcome.ok) := by
  rcases hval : d.values with _ | buf
  · exact absurd hval hv
  · simp [stats_step, hval]

theorem step_null_none (d : WindowStatsData) (hv : d.values = none) :
    stats_step true d SQLiteValue.null = ((init_window_stats_data true d).1, StepOutcome.ok) := by
  simp [stats_step, hv, init_window_stats_data]

theorem step_other_some (d : WindowStatsData) (hv : d.values ≠ none) :
    stats_step true d SQLiteValue.other = (d, StepOutcome.typeErr) := by
  rcases hval : d.values with _ | buf
  · exact absurd hval hv
  · simp [stats_step, hval]

theorem step_other_none (d : WindowStatsData) (hv : d.values = none) :
    stats_step true d SQLiteValue.other =
      ((init_window_stats_data true d).1, StepOutcome.typeErr) := by
  simp [stats_step, hv, init_window_stats_data]

/-- The inverse callback is the identity on an empty context. -/
theorem inverse_noop_of_empty (d : WindowStatsData) (arg : SQLiteValue)
    (h : d.count = 0) : stats_inverse d arg = d := by
  rw [stats_inverse, if_pos (Or.inr h)]

/-- The inverse callback is the identity on a NULL row. -/
theorem inverse_noop_null (d : WindowStatsData) : stats_inverse d SQLiteValue.null = d := by
  rw [stats_inverse]
  by_cases hg : d.values = none ∨ d.count = 0
  · rw [if_pos hg]
  · rw [if_neg hg, if_pos rfl]

/-- Evicting a non-NULL row from a non-empty well-formed state: the oldest
live value is removed from the front and subtracted from the aggregates. -/
theorem inverse_spec (d : WindowStatsData) (arg : SQLiteValue) (h : WF d)
    (hcnt : d.count ≠ 0) (harg : arg ≠ SQLiteValue.null) :
    WF (stats_inverse d arg) ∧
      liveValues d =
        (remove_from_circular_buffer d).1 :: liveValues (stats_inverse d arg) ∧
      (stats_inverse d arg).sum = d.sum - (remove_from_circular_buffer d).1 ∧
      (stats_inverse d arg).sum_sq =
        d.sum_sq - (remove_from_circular_buffer d).1 * (remove_from_circular_buffer d).1 ∧
      (stats_inverse d arg).count = d.count - 1 := by
  have hv : d.values ≠ none := by
    intro hn
    exact hcnt (h.2.2.1 hn).2.1
  have hhead : d.head < d.capacity := (h.2.2.2 hv).2.1
  have hred : stats_inverse d arg =
      { (remove_from_circular_buffer d).2 with
          sum := (remove_from_circular_buffer d).2.sum - (remove_from_circular_buffer d).1,
          sum_sq := (remove_from_circular_buffer d).2.sum_sq -
            (remove_from_circular_buffer d).1 * (remove_from_circular_buffer d).1 } := by
    rw [stats_inverse, if_neg (by simp [hv, hcnt]), if_neg harg]
  have hWF2 := WF_remove d h hv hcnt
  have hlive := remove_liveValues d hhead hcnt
  have hd2 : (remove_from_circular_buffer d).2 =
      { d with head := (d.head + 1) % d.capacity, count := d.count - 1 } := by
    rw [remove_from_circular_buffer, if_neg hcnt]
  rw [hred]
  refine ⟨?_, ?_, ?_, ?_, ?_⟩
  · obtain ⟨ha, hb, hc, he⟩ := hWF2
    refine ⟨ha, hb, ?_, he⟩
    intro hn
    rw [hd2] at hn
    exact absurd hn hv
  · exact hlive
  · show (remove_from_circular_buffer d).2.sum - _ = _
    rw [hd2]
  · show (remove_from_circular_buffer d).2.sum_sq - _ = _
    rw [hd2]
  · show (remove_from_circular_buffer d).2.count = d.count - 1
    rw [hd2]

/-! ## The invariant holds in every reachable state -/

theorem statsInv_applyOp (d : WindowStatsData) (op : Op) (h : StatsInv d) :
    StatsInv (applyOp d op) := by
  obtain ⟨hwf, hsum, hsq⟩ := h
  cases op with
  | step arg =>
    cases arg with
    | null =>
      show StatsInv (stats_step true d SQLiteValue.null).1
      rcases hval : d.values with _ | buf
      · rw [step_null_none d hval]
        exact statsInv_init d
      · rw [step_null_some d (by rw [hval]; simp)]
        exact ⟨hwf, hsum, hsq⟩
    | numeric v =>
      show StatsInv (stats_step true d (SQLiteValue.numeric v)).1
      obtain ⟨-, hw, hl, hs, hq, -⟩ := step_numeric d v hwf
      refine ⟨hw, ?_, ?_⟩
      · rw [hs, hl, hsum, List.sum_append, List.sum_cons, List.sum_nil, add_zero]
      · rw [hq, hl, hsq, List.map_append, List.sum_append]
        simp
    | other =>
      show StatsInv (stats_step true d SQLiteValue.other).1
      rcases hval : d.values with _ | buf
      · rw [step_other_none d hval]
        exact statsInv_init d
      · rw [step_other_some d (by rw [hval]; simp)]
        exact ⟨hwf, hsum, hsq⟩
  | inverse arg =>
    show StatsInv (stats_inverse d arg)
    by_cases hcnt : d.count = 0
    · rw [inverse_noop_of_empty d arg hcnt]
      exact ⟨hwf, hsum, hsq⟩
    · by_cases harg : arg = SQLiteValue.null
      · rw [harg, inverse_noop_null d]
        exact ⟨hwf, hsum, hsq⟩
      · obtain ⟨hw, hl, hs, hq, -⟩ := inverse_spec d arg hwf hcnt harg
        refine ⟨hw, ?_, ?_⟩
        · rw [hs, hsum, hl, List.sum_cons]
          ring
        · rw [hq, hsq, hl, List.map_cons, List.sum_cons]
          ring

theorem statsInv_runOps (ops : List Op) : StatsInv (runOps ops) := by
  suffices H : ∀ d, StatsInv d → StatsInv (ops.foldl applyOp d) from
    H initialData statsInv_initialData
  induction ops with
  | nil => intro d h; exact h
  | cons op ops ih => intro d h; exact ih _ (statsInv_applyOp d op h)

/-! ## Non-negativity of the population-variance formula -/

/-- Expanding the sum of squared deviations about an arbitrary centre. -/
theorem sum_centered (l : List ℚ) (m : ℚ) :
    (l.map (fun x => (x - m) * (x - m))).sum =
      (l.map (fun x => x * x)).sum - 2 * m * l.sum + (l.length : ℚ) * (m * m) := by
  induction l with
  | nil => simp
  | cons a l ih =>
    simp only [List.map_cons, List.sum_cons, List.length_cons, ih]
    push_cast
    ring

/-- The population-variance formula `Σx²/n − (Σx/n)²` is non-negative for a
nonempty list: it equals the mean of the squared deviations. -/
theorem popvar_formula_nonneg (l : List ℚ) (hl : l ≠ []) :
    0 ≤ (l.map (fun x => x * x)).sum / (l.length : ℚ) -
      (l.sum / (l.length : ℚ)) * (l.sum / (l.length : ℚ)) := by
  have hn : (0:ℚ) < (l.length : ℚ) := by
    exact_mod_cast List.length_pos.mpr hl
  have h1 : 0 ≤ (l.map (fun x =>
      (x - l.sum / (l.length : ℚ)) * (x - l.sum / (l.length : ℚ)))).sum := by
    apply List.sum_nonneg
    intro y hy
    simp only [List.mem_map] at hy
    obtain ⟨x, -, rfl⟩ := hy
    exact mul_self_nonneg _
  have h2 : (l.map (fun x => x * x)).sum / (l.length : ℚ) -
      (l.sum / (l.length : ℚ)) * (l.sum / (l.length : ℚ)) =
      (l.map (fun x =>
        (x - l.sum / (l.length : ℚ)) * (x - l.sum / (l.length : ℚ)))).sum / (l.length : ℚ) := by
    rw [sum_centered]
    field_simp
    ring
  rw [h2]
  exact div_nonneg h1 hn.le

theorem calculate_variance_sample_eq_none_iff (d : WindowStatsData) :
    calculate_variance_sample d = none ↔ d.count < 2 := by
  rw [calculate_variance_sample]
  by_cases h : d.count < MIN_COUNT_SAMPLE
  · rw [if_pos h]
    simpa [MIN_COUNT_SAMPLE] using h
  · rw [if_neg h]
    simp only [MIN_COUNT_SAMPLE] at h
    simp [h]

theorem calculate_variance_population_eq_none_iff (d : WindowStatsData) :
    calculate_variance_population d = none ↔ d.count = 0 := by
  rw [calculate_variance_population]
  by_cases h : d.count < MIN_COUNT_POPULATION
  · rw [if_pos h]
    simp only [MIN_COUNT_POPULATION] at h
    simpa using Nat.lt_one_iff.mp h
  · rw [if_neg h]
    simp only [MIN_COUNT_POPULATION] at h
    simp
    omega

/-! ## The claims -/

/-- C1: for every sequence of step (insert) and inverse (evict) operations
from the empty accumulator, the running `sum` equals the sum of exactly the
currently-live values and `sum_sq` equals the sum of their squares — the
incrementally maintained aggregates never drift from the buffer contents. -/
theorem C1_running_aggregates (ops : List Op) :
    (runOps ops).sum = (liveValues (runOps ops)).sum ∧
      (runOps ops).sum_sq = ((liveValues (runOps ops)).map (fun x => x * x)).sum :=
  ⟨(statsInv_runOps ops).2.1, (statsInv_runOps ops).2.2⟩

/-- C2: `calculate_variance_sample` returns NaN (here `none`) when
`count < 2`, and otherwise `popVar · count/(count − 1)` where
`mean = sum/count` and `popVar = sumSquares/count − mean²`. -/
theorem C2_variance_sample_formula (d : WindowStatsData) :
    (d.count < 2 → calculate_variance_sample d = none) ∧
    (2 ≤ d.count →
      calculate_variance_sample d =
        some ((d.sum_sq / (d.count : ℚ) - (d.sum / (d.count : ℚ)) ^ 2) *
          ((d.count : ℚ) / ((d.count : ℚ) - 1)))) := by
  constructor
  · intro h
    rw [calculate_variance_sample, if_pos (by rwa [MIN_COUNT_SAMPLE])]
  · intro h
    rw [calculate_variance_sample, if_neg (by rw [MIN_COUNT_SAMPLE]; omega)]
    have hc : ((d.count - 1 : ℕ) : ℚ) = (d.count : ℚ) - 1 := by
      have h1 : 1 ≤ d.count := by omega
      push_cast [h1]
      ring
    rw [hc]
    congr 1
    ring

/-- C2 witness: a state with three live values 1, 2, 3 (sum 6, sum of
squares 14). -/
theorem C2_variance_sample_formula_witness :
    2 ≤ (WindowStatsData.mk none 3 0 0 0 6 14).count ∧
      calculate_variance_sample (WindowStatsData.mk none 3 0 0 0 6 14) =
        some (((WindowStatsData.mk none 3 0 0 0 6 14).sum_sq /
            ((WindowStatsData.mk none 3 0 0 0 6 14).count : ℚ) -
            ((WindowStatsData.mk none 3 0 0 0 6 14).sum /
              ((WindowStatsData.mk none 3 0 0 0 6 14).count : ℚ)) ^ 2) *
          (((WindowStatsData.mk none 3 0 0 0 6 14).count : ℚ) /
            (((WindowStatsData.mk none 3 0 0 0 6 14).count : ℚ) - 1))) :=
  ⟨by norm_num, (C2_variance_sample_formula (WindowStatsData.mk none 3 0 0 0 6 14)).2
    (by norm_num)⟩

/-- C3: `calculate_variance_population` returns NaN (here `none`) when
`count < 1`, and otherwise `sumSquares/count − (sum/count)²`. -/
theorem C3_variance_population_formula (d : WindowStatsData) :
    (d.count < 1 → calculate_variance_population d = none) ∧
    (1 ≤ d.count →
      calculate_variance_population d =
        some (d.sum_sq / (d.count : ℚ) - (d.sum / (d.count : ℚ)) ^ 2)) := by
  constructor
  · intro h
    rw [calculate_variance_population, if_pos (by rwa [MIN_COUNT_POPULATION])]
  · intro h
    rw [calculate_variance_population, if_neg (by rw [MIN_COUNT_POPULATION]; omega)]
    congr 1
    ring

/-- C3 witness: a state with two live values 1 and 3 (sum 4, sum of
squares 10). -/
theorem C3_variance_population_formula_witness :
    1 ≤ (WindowStatsData.mk none 2 0 0 0 4 10).count ∧
      calculate_variance_population (WindowStatsData.mk none 2 0 0 0 4 10) =
        some ((WindowStatsData.mk none 2 0 0 0 4 10).sum_sq /
            ((WindowStatsData.mk none 2 0 0 0 4 10).count : ℚ) -
          ((WindowStatsData.mk none 2 0 0 0 4 10).sum /
            ((WindowStatsData.mk none 2 0 0 0 4 10).count : ℚ)) ^ 2) :=
  ⟨by norm_num, (C3_variance_population_formula (WindowStatsData.mk none 2 0 0 0 4 10)).2
    (by norm_num)⟩

/-- C6: the inverse callback on an empty accumulator is a no-op: the helper
returns the sentinel `0.0` with the state untouched, and the callback leaves
every field unchanged — the fabricated `0.0` is never subtracted from `sum`
or `sum_sq`. -/
theorem C6_evict_on_empty (d : WindowStatsData) (w : SQLiteValue) (h : d.count = 0) :
    remove_from_circular_buffer d = (0, d) ∧ stats_inverse d w = d := by
  refine ⟨?_, inverse_noop_of_empty d w h⟩
  rw [remove_from_circular_buffer, if_pos h]

/-- C6 witness: the zero-initialized context with a numeric departing row. -/
theorem C6_evict_on_empty_witness :
    initialData.count = 0 ∧
      (remove_from_circular_buffer initialData = (0, initialData) ∧
        stats_inverse initialData (SQLiteValue.numeric 5) = initialData) :=
  ⟨rfl, C6_evict_on_empty initialData (SQLiteValue.numeric 5) rfl⟩

/-- C9 counterexample: the state reached by a single inverse operation (the
zero-initialized context, untouched by the no-op evict) violates the claimed
invariant — `head < capacity` fails because `capacity = 0` before the lazy
allocation. -/
theorem C9_counterexample :
    ¬ ((runOps [Op.inverse (SQLiteValue.numeric 1)]).count ≤
          (runOps [Op.inverse (SQLiteValue.numeric 1)]).capacity ∧
       (runOps [Op.inverse (SQLiteValue.numeric 1)]).head <
          (runOps [Op.inverse (SQLiteValue.numeric 1)]).capacity ∧
       (runOps [Op.inverse (SQLiteValue.numeric 1)]).tail =
         ((runOps [Op.inverse (SQLiteValue.numeric 1)]).head +
            (runOps [Op.inverse (SQLiteValue.numeric 1)]).count) %
           (runOps [Op.inverse (SQLiteValue.numeric 1)]).capacity) := by
  intro h
  exact absurd h.2.1 (by decide)

/-- C9 amended: every reachable state satisfies `count ≤ capacity` and
`tail = (head + count) % capacity`; `head < capacity` additionally holds
whenever the buffer has been allocated, while the not-yet-allocated context
has `capacity = head = tail = count = 0`. -/
theorem C9_structural_invariant (ops : List Op) :
    (runOps ops).count ≤ (runOps ops).capacity ∧
    (runOps ops).tail =
      ((runOps ops).head + (runOps ops).count) % (runOps ops).capacity ∧
    ((runOps ops).values ≠ none → (runOps ops).head < (runOps ops).capacity) ∧
    ((runOps ops).values = none →
      (runOps ops).capacity = 0 ∧ (runOps ops).head = 0 ∧
        (runOps ops).tail = 0 ∧ (runOps ops).count = 0) := by
  obtain ⟨⟨hlen, hle, hnone, hsome⟩, -, -⟩ := statsInv_runOps ops
  refine ⟨hle, ?_, fun hv => (hsome hv).2.1,
    fun hn => ⟨(hnone hn).1, (hnone hn).2.2.1, (hnone hn).2.2.2.1, (hnone hn).2.1⟩⟩
  by_cases hv : (runOps ops).values = none
  · obtain ⟨hcap, hcnt, hh, ht, -, -⟩ := hnone hv
    rw [ht, hh, hcnt, hcap]
  · exact (hsome hv).2.2

/-- C10: a NULL row is ignored by both callbacks — the step callback leaves
`count`, `sum`, `sum_sq`, `head`, `tail` and the live values unchanged (only
the lazy first-call allocation may run), and the inverse callback returns the
state unchanged. -/
theorem C10_null_row (d : WindowStatsData) (h : WF d) :
    ((stats_step true d SQLiteValue.null).1.count = d.count ∧
     (stats_step true d SQLiteValue.null).1.sum = d.sum ∧
     (stats_step true d SQLiteValue.null).1.sum_sq = d.sum_sq ∧
     (stats_step true d SQLiteValue.null).1.head = d.head ∧
     (stats_step true d SQLiteValue.null).1.tail = d.tail ∧
     liveValues (stats_step true d SQLiteValue.null).1 = liveValues d) ∧
    stats_inverse d SQLiteValue.null = d := by
  refine ⟨?_, inverse_noop_null d⟩
  rcases hval : d.values with _ | buf
  · obtain ⟨-, -, hnone, -⟩ := h
    obtain ⟨hcap0, hcnt0, hh0, ht0, hs0, hq0⟩ := hnone hval
    rw [step_null_none d hval, init_fst]
    exact ⟨hcnt0.symm, hs0.symm, hq0.symm, hh0.symm, ht0.symm,
      by rw [liveValues_of_count_zero _ rfl, liveValues_of_count_zero d hcnt0]⟩
  · rw [step_null_some d (by rw [hval]; simp)]
    exact ⟨rfl, rfl, rfl, rfl, rfl, rfl⟩

/-- C10 witness: a well-formed two-element state. -/
theorem C10_null_row_witness :
    WF (WindowStatsData.mk (some [3, 4]) 2 2 0 0 7 25) ∧
      (stats_step true (WindowStatsData.mk (some [3, 4]) 2 2 0 0 7 25)
          SQLiteValue.null).1.sum = (WindowStatsData.mk (some [3, 4]) 2 2 0 0 7 25).sum ∧
      stats_inverse (WindowStatsData.mk (some [3, 4]) 2 2 0 0 7 25) SQLiteValue.null =
        WindowStatsData.mk (some [3, 4]) 2 2 0 0 7 25 :=
  ⟨by decide,
    ((C10_null_row (WindowStatsData.mk (some [3, 4]) 2 2 0 0 7 25) (by decide)).1).2.1,
    (C10_null_row (WindowStatsData.mk (some [3, 4]) 2 2 0 0 7 25) (by decide)).2⟩

/-- C5 counterexample: on the zero-initialized context an insert whose
initial allocation fails reports out-of-memory but does NOT leave the
accumulator exactly in its prior state — `init_window_stats_data` has already
set `capacity` to `INITIAL_CAPACITY` before the failed `malloc`. -/
theorem C5_counterexample :
    (stats_step false initialData (SQLiteValue.numeric 1)).2 = StepOutcome.oom ∧
      (stats_step false initialData (SQLiteValue.numeric 1)).1 ≠ initialData := by
  refine ⟨rfl, ?_⟩
  intro h
  have : (stats_step false initialData (SQLiteValue.numeric 1)).1.capacity =
      initialData.capacity := by rw [h]
  exact absurd this (by decide)

/-- C5 amended: a failed growth allocation leaves the state exactly
unchanged; a failed initial allocation changes only the `capacity` field
(set to `INITIAL_CAPACITY`, buffer still unallocated) and does not invalidate
the accumulator — a subsequent step behaves exactly as from the prior state. -/
theorem C5_alloc_failure (d : WindowStatsData) (v : ℚ) (w : SQLiteValue) :
    (d.values = none →
      stats_step false d w = ({ d with capacity := INITIAL_CAPACITY }, StepOutcome.oom) ∧
      ∀ u, stats_step true (stats_step false d w).1 u = stats_step true d u) ∧
    (d.values ≠ none → d.capacity ≤ d.count →
      stats_step false d (SQLiteValue.numeric v) = (d, StepOutcome.oom)) := by
  constructor
  · intro hv
    have hfail : stats_step false d w =
        ({ d with capacity := INITIAL_CAPACITY }, StepOutcome.oom) := by
      simp [stats_step, hv, init_window_stats_data]
    refine ⟨hfail, fun u => ?_⟩
    rw [hfail]
    show stats_step true { d with capacity := INITIAL_CAPACITY } u = stats_step true d u
    have h1 : ({ d with capacity := INITIAL_CAPACITY } : WindowStatsData).values = none := hv
    simp [stats_step, hv, h1, init_window_stats_data]
  · intro hv hfull
    rcases hval : d.values with _ | buf
    · exact absurd hval hv
    · simp [stats_step, hval, hfull, grow_stats_buffer]

/-- C5 witness: initial-allocation failure on the fresh context, after which
a successful step is indistinguishable from one on the untouched context. -/
theorem C5_alloc_failure_witness :
    initialData.values = none ∧
      stats_step false initialData (SQLiteValue.numeric 1) =
        ({ initialData with capacity := INITIAL_CAPACITY }, StepOutcome.oom) ∧
      stats_step true (stats_step false initialData (SQLiteValue.numeric 1)).1
          (SQLiteValue.numeric 2) =
        stats_step true initialData (SQLiteValue.numeric 2) :=
  ⟨rfl, ((C5_alloc_failure initialData 1 (SQLiteValue.numeric 1)).1 rfl).1,
    ((C5_alloc_failure initialData 1 (SQLiteValue.numeric 1)).1 rfl).2 (SQLiteValue.numeric 2)⟩

/-- C4: on a full well-formed accumulator (`count = capacity`) the
ensure-capacity phase run before the next insert succeeds, doubles the
capacity (or allocates `INITIAL_CAPACITY` when it was zero), copies the
`count` live values in oldest-to-newest order to the start of the new
buffer, sets `head = 0` and `tail = count`, and preserves the logical value
sequence. -/
theorem C4_growth (d : WindowStatsData) (h : WF d) (hfull : d.count = d.capacity) :
    (ensure_capacity true d).2 = true ∧
    (ensure_capacity true d).1.capacity =
      (if d.capacity = 0 then INITIAL_CAPACITY else d.capacity * CAPACITY_GROWTH_FACTOR) ∧
    (ensure_capacity true d).1.head = 0 ∧
    (ensure_capacity true d).1.tail = d.count ∧
    (∀ i, i < d.count →
      (bufOf (ensure_capacity true d).1).getD i 0 = get_circular_value d i) ∧
    liveValues (ensure_capacity true d).1 = liveValues d := by
  obtain ⟨hlen, hle, hnone, hsome⟩ := h
  rcases hval : d.values with _ | buf
  · obtain ⟨hcap0, hcnt0, hh0, ht0, -, -⟩ := hnone hval
    have he : ensure_capacity true d = init_window_stats_data true d := by
      rw [ensure_capacity, hval]
    rw [he, init_fst]
    refine ⟨rfl, by rw [if_pos hcap0], rfl, hcnt0.symm, ?_, ?_⟩
    · intro i hi
      rw [hcnt0] at hi
      exact absurd hi (Nat.not_lt_zero i)
    · rw [liveValues_of_count_zero _ rfl, liveValues_of_count_zero d hcnt0]
  · have hv : d.values ≠ none := by rw [hval]; simp
    obtain ⟨hcap, hhead, htail⟩ := hsome hv
    have he : ensure_capacity true d = grow_stats_buffer true d := by
      rw [ensure_capacity, hval, if_pos (Nat.le_of_eq hfull.symm)]
    obtain ⟨hwg, hliveg, hbufg⟩ := grow_spec d ⟨hlen, hle, hnone, hsome⟩ hv
    refine ⟨by rw [he, grow_snd], ?_, ?_, ?_, ?_, by rw [he]; exact hliveg⟩
    · rw [he, if_neg (Nat.pos_iff_ne_zero.mp hcap)]
      rfl
    · rw [he]; rfl
    · rw [he]; rfl
    · intro i hi
      rw [he, hbufg, getD_append_left _ _ _ (by rw [liveValues_length]; exact hi)]
      exact liveValues_getD d i hi

/-- C4 witness: a full two-slot buffer with a wrapped window. -/
theorem C4_growth_witness :
    WF (WindowStatsData.mk (some [5, 7]) 2 2 1 1 12 74) ∧
      (WindowStatsData.mk (some [5, 7]) 2 2 1 1 12 74).count =
        (WindowStatsData.mk (some [5, 7]) 2 2 1 1 12 74).capacity ∧
      liveValues (ensure_capacity true (WindowStatsData.mk (some [5, 7]) 2 2 1 1 12 74)).1 =
        liveValues (WindowStatsData.mk (some [5, 7]) 2 2 1 1 12 74) :=
  ⟨by decide, rfl,
    (C4_growth (WindowStatsData.mk (some [5, 7]) 2 2 1 1 12 74) (by decide) rfl).2.2.2.2.2⟩

/-- C8: inserting a single value into the fresh accumulator and then evicting
it returns the accumulator to `count = 0`, `sum = 0` and `sum_sq = 0`
exactly. -/
theorem C8_insert_evict_cancel (v : ℚ) :
    (stats_inverse (stats_step true initialData (SQLiteValue.numeric v)).1
        (SQLiteValue.numeric v)).count = 0 ∧
    (stats_inverse (stats_step true initialData (SQLiteValue.numeric v)).1
        (SQLiteValue.numeric v)).sum = 0 ∧
    (stats_inverse (stats_step true initialData (SQLiteValue.numeric v)).1
        (SQLiteValue.numeric v)).sum_sq = 0 := by
  obtain ⟨-, hw1, hl1, hs1, hq1, hc1⟩ := step_numeric initialData v WF_initialData
  have hc1' : (stats_step true initialData (SQLiteValue.numeric v)).1.count = 1 := by
    rw [hc1]
    rfl
  obtain ⟨-, hl2, hs2, hq2, hc2⟩ :=
    inverse_spec (stats_step true initialData (SQLiteValue.numeric v)).1
      (SQLiteValue.numeric v) hw1 (by omega) (by simp)
  have hlv : liveValues (stats_step true initialData (SQLiteValue.numeric v)).1 = [v] := by
    rw [hl1, liveValues_of_count_zero initialData rfl]
    rfl
  rw [hlv] at hl2
  injection hl2 with hr _
  refine ⟨by rw [hc2, hc1'], ?_, ?_⟩
  · rw [hs2, hs1, ← hr]
    simp [initialData]
  · rw [hq2, hq1, ← hr]
    simp [initialData]

/-- C7: in every reachable state, the sample variance is NaN (`none`) exactly
when fewer than two values are live and otherwise a non-negative rational,
and the population variance is NaN exactly when no value is live and
otherwise non-negative. -/
theorem C7_variance_definedness (ops : List Op) :
    (calculate_variance_sample (runOps ops) = none ↔ (runOps ops).count < 2) ∧
    (∀ q, calculate_variance_sample (runOps ops) = some q → 0 ≤ q) ∧
    (calculate_variance_population (runOps ops) = none ↔ (runOps ops).count = 0) ∧
    (∀ q, calculate_variance_population (runOps ops) = some q → 0 ≤ q) := by
  obtain ⟨hwf, hsum, hsq⟩ := statsInv_runOps ops
  have hlen : (liveValues (runOps ops)).length = (runOps ops).count :=
    liveValues_length (runOps ops)
  have hpop : 1 ≤ (runOps ops).count →
      0 ≤ (runOps ops).sum_sq / ((runOps ops).count : ℚ) -
        (runOps ops).sum / ((runOps ops).count : ℚ) *
          ((runOps ops).sum / ((runOps ops).count : ℚ)) := by
    intro h1
    have hne : liveValues (runOps ops) ≠ [] := by
      intro hnil
      rw [hnil] at hlen
      simp at hlen
      omega
    have hnn := popvar_formula_nonneg (liveValues (runOps ops)) hne
    rw [hlen] at hnn
    rw [hsum, hsq]
    exact hnn
  refine ⟨calculate_variance_sample_eq_none_iff (runOps ops), ?_,
    calculate_variance_population_eq_none_iff (runOps ops), ?_⟩
  · intro q hq
    by_cases h2 : (runOps ops).count < MIN_COUNT_SAMPLE
    · rw [calculate_variance_sample, if_pos h2] at hq
      exact absurd hq (by simp)
    · simp only [calculate_variance_sample, if_neg h2] at hq
      simp only [MIN_COUNT_SAMPLE] at h2
      rw [← Option.some.inj hq]
      exact mul_nonneg (hpop (by omega))
        (div_nonneg (Nat.cast_nonneg _) (Nat.cast_nonneg _))
  · intro q hq
    by_cases h1 : (runOps ops).count < MIN_COUNT_POPULATION
    · rw [calculate_variance_population, if_pos h1] at hq
      exact absurd hq (by simp)
    · simp only [calculate_variance_population, if_neg h1] at hq
      simp only [MIN_COUNT_POPULATION] at h1
      rw [← Option.some.inj hq]
      exact hpop (by omega)


/-- C7 witness: two inserted zeros give sample and population variance
`some 0`, which is non-negative. -/
theorem C7_variance_definedness_witness :
    calculate_variance_sample
        (runOps [Op.step (SQLiteValue.numeric 0), Op.step (SQLiteValue.numeric 0)]) =
      some 0 ∧
    calculate_variance_population
        (runOps [Op.step (SQLiteValue.numeric 0), Op.step (SQLiteValue.numeric 0)]) =
      some 0 ∧
    (0:ℚ) ≤ 0 ∧ (0:ℚ) ≤ 0 := by
  have hs : calculate_variance_sample
      (runOps [Op.step (SQLiteValue.numeric 0), Op.step (SQLiteValue.numeric 0)]) =
        some 0 := by
    simp [runOps, applyOp, stats_step, init_window_stats_data, add_to_circular_buffer,
      initialData, bufOf, INITIAL_CAPACITY, calculate_variance_sample, MIN_COUNT_SAMPLE]
  have hp : calculate_variance_population
      (runOps [Op.step (SQLiteValue.numeric 0), Op.step (SQLiteValue.numeric 0)]) =
        some 0 := by
    simp [runOps, applyOp, stats_step, init_window_stats_data, add_to_circular_buffer,
      initialData, bufOf, INITIAL_CAPACITY, calculate_variance_population,
      MIN_COUNT_POPULATION]
  exact ⟨hs, hp,
    (C7_variance_definedness
      [Op.step (SQLiteValue.numeric 0), Op.step (SQLiteValue.numeric 0)]).2.1 0 hs,
    (C7_variance_definedness
      [Op.step (SQLiteValue.numeric 0), Op.step (SQLiteValue.numeric 0)]).2.2.2 0 hp⟩
